import Mathlib

/-!
Shallow embedding of the mGUI monochrome-display toolkit (`src/mGUI/mgui.h`)
and proofs about its rasterizer, containers, menu navigation and focus group.

Conventions used throughout:
* a framebuffer is a `List Nat` of bytes, each kept below 256 by the
  operations (`uint8_t* lcd_buffer_` in the source);
* C++ `int` coordinates are `Int`; machine overflow does not occur in any
  quantity reasoned about here (all stay far below 2^31);
* C++ while-loops are modelled with an explicit fuel parameter chosen at the
  call site to be at least the number of iterations the loop performs.
-/

/-- One byte of the framebuffer (a `uint8_t` in the source). -/
abbrev Byte := Nat

/-- `mgui_draw::draw_pixel` (mgui.h:1176-1187).  The source guards with
`x < lcd_width_ && y < lcd_height_` on signed ints; a negative coordinate
would index outside the buffer (undefined behavior), so the model is stated
on the in-bounds regime `0 ≤ x`, `0 ≤ y`, where it matches the source byte
for byte: byte index `(y >> 3) * width + x`, bit mask `1 << (y % 8)`, set
with `|`, clear with `& ~mask` (on an 8-bit byte, `~mask` is `255 ^^^ mask`). -/
def draw_pixel (w h : Nat) (buf : List Byte) (x y : Int) (is_on : Bool) : List Byte :=
  if 0 ≤ x ∧ x < (w : Int) ∧ 0 ≤ y ∧ y < (h : Int) then
    let idx := (y.toNat / 8) * w + x.toNat
    let mask := 2 ^ (y.toNat % 8)
    let b := buf.getD idx 0
    buf.set idx (if is_on then b ||| mask else b &&& (255 ^^^ mask))
  else buf

/-- Whether pixel `(x, y)` is lit, reading the buffer with the layout of
`draw_pixel`: bit `y % 8` of byte `(y / 8) * w + x`. -/
def get_pixel (w : Nat) (buf : List Byte) (x y : Nat) : Bool :=
  Nat.testBit (buf.getD ((y / 8) * w + x) 0) (y % 8)

/-- Byte index used by `draw_pixel` for the pixel `(x, y)`. -/
def pixel_index (w : Nat) (x y : Int) : Nat := (y.toNat / 8) * w + x.toNat

theorem draw_pixel_in_bounds (w h : Nat) (buf : List Byte) (x y : Int) (is_on : Bool)
    (hx0 : 0 ≤ x) (hxw : x < (w : Int)) (hy0 : 0 ≤ y) (hyh : y < (h : Int)) :
    draw_pixel w h buf x y is_on =
      buf.set (pixel_index w x y)
        (if is_on then buf.getD (pixel_index w x y) 0 ||| 2 ^ (y.toNat % 8)
         else buf.getD (pixel_index w x y) 0 &&& (255 ^^^ 2 ^ (y.toNat % 8))) := by
  unfold draw_pixel pixel_index
  rw [if_pos ⟨hx0, hxw, hy0, hyh⟩]

theorem draw_pixel_on_eq (w h : Nat) (buf : List Byte) (x y : Int)
    (hx0 : 0 ≤ x) (hxw : x < (w : Int)) (hy0 : 0 ≤ y) (hyh : y < (h : Int)) :
    draw_pixel w h buf x y true =
      buf.set (pixel_index w x y)
        (buf.getD (pixel_index w x y) 0 ||| 2 ^ (y.toNat % 8)) := by
  rw [draw_pixel_in_bounds w h buf x y true hx0 hxw hy0 hyh]
  rfl

theorem draw_pixel_off_eq (w h : Nat) (buf : List Byte) (x y : Int)
    (hx0 : 0 ≤ x) (hxw : x < (w : Int)) (hy0 : 0 ≤ y) (hyh : y < (h : Int)) :
    draw_pixel w h buf x y false =
      buf.set (pixel_index w x y)
        (buf.getD (pixel_index w x y) 0 &&& (255 ^^^ 2 ^ (y.toNat % 8))) := by
  rw [draw_pixel_in_bounds w h buf x y false hx0 hxw hy0 hyh]
  rfl

theorem draw_pixel_out_of_bounds (w h : Nat) (buf : List Byte) (x y : Int) (is_on : Bool)
    (hout : (w : Int) ≤ x ∨ (h : Int) ≤ y) :
    draw_pixel w h buf x y is_on = buf := by
  unfold draw_pixel
  rw [if_neg]
  rintro ⟨-, hxw, -, hyh⟩
  rcases hout with hx | hy
  · exact absurd hxw (not_lt.mpr hx)
  · exact absurd hyh (not_lt.mpr hy)

/-- Bytes other than the addressed one are never touched by `draw_pixel`. -/
theorem draw_pixel_frame (w h : Nat) (buf : List Byte) (x y : Int) (is_on : Bool)
    (j : Nat) (hj : j ≠ pixel_index w x y) :
    (draw_pixel w h buf x y is_on).getD j 0 = buf.getD j 0 := by
  unfold draw_pixel
  split
  · simp only [List.getD, List.get?_eq_getElem?, pixel_index] at *
    rw [List.getElem?_set_ne (by omega)]
  · rfl

theorem list_set_getD_self (l : List Byte) (n : Nat) (h : n < l.length) :
    l.set n (l.getD n 0) = l := by
  apply List.ext_getElem?
  intro j
  by_cases hj : j = n
  · subst hj
    rw [List.getElem?_set_eq_of_lt _ h, List.getD_eq_getElem l 0 h, List.getElem?_eq_getElem h]
  · rw [List.getElem?_set_ne (by omega)]

/-- Setting a fresh bit with `| mask` and clearing it again with `& ~mask`
(8-bit complement) gives the byte back. -/
theorem byte_or_and_not_mask (b k : Nat) (hk : k < 8) (hb : b < 256)
    (hbit : b.testBit k = false) :
    (b ||| 2 ^ k) &&& (255 ^^^ 2 ^ k) = b := by
  apply Nat.eq_of_testBit_eq
  intro j
  have h255 : (255 : Nat) = 2 ^ 8 - 1 := by norm_num
  rw [Nat.testBit_and, Nat.testBit_or, Nat.testBit_xor, h255,
    Nat.testBit_two_pow_sub_one, Nat.testBit_two_pow]
  by_cases hjk : j = k
  · subst hjk
    simp [hbit, hk]
  · by_cases hj8 : j < 8
    · simp [hjk, Ne.symm hjk, hj8]
    · have h28 : (256 : Nat) ≤ 2 ^ j :=
        le_trans (by norm_num : (256 : Nat) ≤ 2 ^ 8)
          (Nat.pow_le_pow_right (by norm_num) (by omega))
      have hbj : b.testBit j = false := Nat.testBit_lt_two_pow (lt_of_lt_of_le hb h28)
      simp [hjk, Ne.symm hjk, hj8, hbj]

/-- C3 (amended): `draw_pixel (x, y, true)` followed by
`draw_pixel (x, y, false)` restores the buffer, provided the pixel was
initially off.  (The unconditional claim is refuted below: if the pixel was
initially on, the round trip clears its bit.) -/
theorem pixel_set_clear_round_trip (w h : Nat) (buf : List Byte) (x y : Int)
    (hx0 : 0 ≤ x) (hxw : x < (w : Int)) (hy0 : 0 ≤ y) (hyh : y < (h : Int))
    (hlen : (y.toNat / 8) * w + x.toNat < buf.length)
    (hbyte : buf.getD ((y.toNat / 8) * w + x.toNat) 0 < 256)
    (hoff : Nat.testBit (buf.getD ((y.toNat / 8) * w + x.toNat) 0) (y.toNat % 8) = false) :
    draw_pixel w h (draw_pixel w h buf x y true) x y false = buf := by
  have hidx : pixel_index w x y = (y.toNat / 8) * w + x.toNat := rfl
  rw [draw_pixel_on_eq w h buf x y hx0 hxw hy0 hyh,
    draw_pixel_off_eq w h _ x y hx0 hxw hy0 hyh]
  simp only [hidx]
  have hset : ((buf.set ((y.toNat / 8) * w + x.toNat)
      (buf.getD ((y.toNat / 8) * w + x.toNat) 0 ||| 2 ^ (y.toNat % 8))).getD
        ((y.toNat / 8) * w + x.toNat) 0)
      = buf.getD ((y.toNat / 8) * w + x.toNat) 0 ||| 2 ^ (y.toNat % 8) := by
    simp only [List.getD, List.get?_eq_getElem?]
    rw [List.getElem?_set_eq_of_lt _ hlen]
    rfl
  rw [hset, List.set_set,
    byte_or_and_not_mask _ _ (Nat.mod_lt _ (by norm_num)) hbyte hoff,
    list_set_getD_self _ _ hlen]

/-- C3 counterexample: on a buffer whose byte 0 is 255 (pixel (0,0) on),
set-then-clear of pixel (0,0) does not restore the byte. -/
theorem pixel_round_trip_counterexample :
    draw_pixel 8 8 (draw_pixel 8 8 [255, 0, 0, 0, 0, 0, 0, 0] 0 0 true) 0 0 false
      ≠ [255, 0, 0, 0, 0, 0, 0, 0] := by decide

theorem pixel_set_clear_round_trip_witness :
    draw_pixel 8 8 (draw_pixel 8 8 [4, 0, 0, 0, 0, 0, 0, 0] 0 0 true) 0 0 false
      = [4, 0, 0, 0, 0, 0, 0, 0] :=
  pixel_set_clear_round_trip 8 8 [4, 0, 0, 0, 0, 0, 0, 0] 0 0
    (by decide) (by decide) (by decide) (by decide) (by decide) (by decide) (by decide)

/-- C6 scenario: draw pixels (0,0) .. (0,k) as on, on a freshly cleared
8×8 surface (8 bytes of zero). -/
def column_draw (k : Nat) : List Byte :=
  (List.range (k + 1)).foldl (fun buf y => draw_pixel 8 8 buf 0 (y : Int) true)
    (List.replicate 8 0)

/-- C6: pixel (x,y) lives at bit `y % 8` of byte `(y / 8) * width + x`
(drawing it on ORs the mask `1 <<< (y % 8)` into exactly that byte), and on a
cleared surface the successive draws of (0,0) .. (0,7) take byte 0 through
the OR-chain of 1, 2, 4, ..., 128, that is 1, 3, 7, 15, 31, 63, 127, 255. -/
theorem framebuffer_bit_addressing (w h : Nat) (buf : List Byte) (x y : Int)
    (hx0 : 0 ≤ x) (hxw : x < (w : Int)) (hy0 : 0 ≤ y) (hyh : y < (h : Int))
    (hlen : (y.toNat / 8) * w + x.toNat < buf.length) :
    (draw_pixel w h buf x y true).getD ((y.toNat / 8) * w + x.toNat) 0
        = buf.getD ((y.toNat / 8) * w + x.toNat) 0 ||| 2 ^ (y.toNat % 8) ∧
    (List.range 8).map (fun k => (column_draw k).getD 0 0)
        = [1, 3, 7, 15, 31, 63, 127, 255] := by
  refine ⟨?_, by decide⟩
  rw [draw_pixel_on_eq w h buf x y hx0 hxw hy0 hyh]
  simp only [pixel_index, List.getD, List.get?_eq_getElem?]
  rw [List.getElem?_set_eq_of_lt _ hlen]
  rfl

theorem framebuffer_bit_addressing_witness :
    (draw_pixel 8 8 [0, 0, 0, 0, 0, 0, 0, 0] 0 5 true).getD 0 0 = 0 ||| 2 ^ 5 :=
  (framebuffer_bit_addressing 8 8 [0, 0, 0, 0, 0, 0, 0, 0] 0 5
    (by decide) (by decide) (by decide) (by decide) (by decide)).1

/-- C7: with non-negative coordinates, a pixel at `x ≥ width` or
`y ≥ height` is silently ignored (whole buffer unchanged), and an in-bounds
pixel changes at most the byte at index `(y / 8) * width + x`. -/
theorem draw_pixel_clip_and_frame (w h : Nat) (buf : List Byte) (x y : Int)
    (is_on : Bool) (_hx : 0 ≤ x) (_hy : 0 ≤ y) :
    (((w : Int) ≤ x ∨ (h : Int) ≤ y) → draw_pixel w h buf x y is_on = buf) ∧
    (x < (w : Int) → y < (h : Int) →
      ∀ j, j ≠ (y.toNat / 8) * w + x.toNat →
        (draw_pixel w h buf x y is_on).getD j 0 = buf.getD j 0) :=
  ⟨fun hout => draw_pixel_out_of_bounds w h buf x y is_on hout,
   fun _ _ j hj => draw_pixel_frame w h buf x y is_on j hj⟩

theorem draw_pixel_clip_and_frame_witness :
    draw_pixel 8 8 [1, 2, 3, 4, 5, 6, 7, 8] 9 3 true = [1, 2, 3, 4, 5, 6, 7, 8] ∧
    (draw_pixel 8 8 [1, 2, 3, 4, 5, 6, 7, 8] 2 3 true).getD 0 0
      = [1, 2, 3, 4, 5, 6, 7, 8].getD 0 0 :=
  ⟨(draw_pixel_clip_and_frame 8 8 _ 9 3 true (by decide) (by decide)).1
      (Or.inl (by norm_num)),
   (draw_pixel_clip_and_frame 8 8 _ 2 3 true (by decide) (by decide)).2
      (by norm_num) (by norm_num) 0 (by decide)⟩

/-- Loop body of `mgui_draw::draw_line` (mgui.h:1116-1139):
`while (x0 != x1 || y0 != y1) { draw_pixel(x0, y0, on); e2 = 2*err;
if (e2 >= dy) { err += dy; x0 += sx; } else { err += dx; y0 += sy; } }`.
The fuel bounds the number of iterations; `draw_line` passes more fuel than
the loop can consume for the runs evaluated in the theorems below (the loop
stops exactly when `(x0, y0) = (x1, y1)`). -/
def draw_line_loop (w h : Nat) (is_on : Bool) (sx sy dx dy x1 y1 : Int) :
    Nat → Int → Int → Int → List Byte → List Byte
  | 0, _, _, _, buf => buf
  | fuel + 1, x0, y0, err, buf =>
    if x0 ≠ x1 ∨ y0 ≠ y1 then
      let buf1 := draw_pixel w h buf x0 y0 is_on
      let e2 := 2 * err
      if e2 ≥ dy then
        draw_line_loop w h is_on sx sy dx dy x1 y1 fuel (x0 + sx) y0 (err + dy) buf1
      else
        draw_line_loop w h is_on sx sy dx dy x1 y1 fuel x0 (y0 + sy) (err + dx) buf1
    else buf

/-- `mgui_draw::draw_line` (mgui.h:1116-1139): sign-adjusted deltas
`sx = x0 < x1 ? 1 : -1`, `sy = y0 < y1 ? 1 : -1`, `dx = sx*(x1-x0)`,
`dy = -sy*(y1-y0)`, `err = dx + dy`, then the loop above. -/
def draw_line (w h : Nat) (buf : List Byte) (x0 y0 x1 y1 : Int) (is_on : Bool) :
    List Byte :=
  let sx : Int := if x0 < x1 then 1 else -1
  let sy : Int := if y0 < y1 then 1 else -1
  let dx := sx * (x1 - x0)
  let dy := -sy * (y1 - y0)
  draw_line_loop w h is_on sx sy dx dy x1 y1
    (((x1 - x0).natAbs + (y1 - y0).natAbs) * 2 + 2) x0 y0 (dx + dy) buf

/-- Number of lit pixels on a `w × h` surface. -/
def lit_count (w h : Nat) (buf : List Byte) : Nat :=
  ((List.range w).map fun x => (List.range h).countP fun y => get_pixel w buf x y).sum

/-- C1: the loop of `draw_line` tests `(x0, y0) ≠ (x1, y1)` before plotting,
so the final endpoint is never drawn: `line(0, 0, 9, 0, true)` on a cleared
16×8 surface lights exactly the 9 pixels with `y = 0` and `x ∈ [0, 8]`,
leaving the endpoint `(9, 0)` dark — not the 10 pixels the claim states. -/
theorem draw_line_drops_endpoint :
    lit_count 16 8 (draw_line 16 8 (List.replicate 16 0) 0 0 9 0 true) = 9 ∧
    get_pixel 16 (draw_line 16 8 (List.replicate 16 0) 0 0 9 0 true) 9 0 = false ∧
    (∀ x < 9, get_pixel 16 (draw_line 16 8 (List.replicate 16 0) 0 0 9 0 true) x 0 = true) := by
  decide

/-- Loop of the outline branch of `mgui_draw::draw_circle` (mgui.h:959-996):
8 symmetric points per step, then
`if (f >= 0) { x--; f -= (x << 2); } y++; f += (y << 2) + 2;`
(the decrement of `x` happens before `f -= 4*x`). -/
def draw_circle_loop (w h : Nat) (x0 y0 : Int) :
    Nat → Int → Int → Int → List Byte → List Byte
  | 0, _, _, _, buf => buf
  | fuel + 1, x, y, f, buf =>
    if x ≥ y then
      let buf1 := draw_pixel w h buf (x0 + x) (y0 + y) true
      let buf2 := draw_pixel w h buf1 (x0 + y) (y0 - x) true
      let buf3 := draw_pixel w h buf2 (x0 + x) (y0 - y) true
      let buf4 := draw_pixel w h buf3 (x0 + y) (y0 + x) true
      let buf5 := draw_pixel w h buf4 (x0 - x) (y0 + y) true
      let buf6 := draw_pixel w h buf5 (x0 - y) (y0 + x) true
      let buf7 := draw_pixel w h buf6 (x0 - x) (y0 - y) true
      let buf8 := draw_pixel w h buf7 (x0 - y) (y0 - x) true
      let x2 := if f ≥ 0 then x - 1 else x
      let f2 := if f ≥ 0 then f - 4 * (x - 1) else f
      draw_circle_loop w h x0 y0 fuel x2 (y + 1) (f2 + 4 * (y + 1) + 2) buf8
    else buf

/-- One row of `mgui_draw::draw_circle_fill` (mgui.h:1276-1310):
`for (int xd = 0; xd < x; xd++)` stamps the 8 symmetric points of `(xd, y)`
— note the strict bound `xd < x`, which skips the boundary offset `xd = x`. -/
def circle_fill_row (w h : Nat) (x0 y0 x y : Int) (buf : List Byte) : List Byte :=
  (List.range x.toNat).foldl (fun b xdn =>
    let xd : Int := xdn
    let b1 := draw_pixel w h b (x0 + xd) (y0 + y) true
    let b2 := draw_pixel w h b1 (x0 + y) (y0 - xd) true
    let b3 := draw_pixel w h b2 (x0 + xd) (y0 - y) true
    let b4 := draw_pixel w h b3 (x0 + y) (y0 + xd) true
    let b5 := draw_pixel w h b4 (x0 - xd) (y0 + y) true
    let b6 := draw_pixel w h b5 (x0 - y) (y0 + xd) true
    let b7 := draw_pixel w h b6 (x0 - xd) (y0 - y) true
    draw_pixel w h b7 (x0 - y) (y0 - xd) true) buf

/-- Loop of `mgui_draw::draw_circle_fill` (mgui.h:1276-1310): same midpoint
stepping as the outline, with the row stamp above in place of the 8 points. -/
def draw_circle_fill_loop (w h : Nat) (x0 y0 : Int) :
    Nat → Int → Int → Int → List Byte → List Byte
  | 0, _, _, _, buf => buf
  | fuel + 1, x, y, f, buf =>
    if x ≥ y then
      let buf1 := circle_fill_row w h x0 y0 x y buf
      let x2 := if f ≥ 0 then x - 1 else x
      let f2 := if f ≥ 0 then f - 4 * (x - 1) else f
      draw_circle_fill_loop w h x0 y0 fuel x2 (y + 1) (f2 + 4 * (y + 1) + 2) buf1
    else buf

/-- `mgui_draw::draw_circle` (mgui.h:959): dispatches to the fill loop when
`fill` is set; both loops start at `x = r`, `y = 0`, `f = -(r << 1) + 3`.
The loop increments `y` every step while `x` never increases from `r`, so it
exits after at most `r + 2` iterations; that fuel is passed. -/
def draw_circle (w h : Nat) (buf : List Byte) (x0 y0 r : Int) (fill : Bool) :
    List Byte :=
  if fill then
    draw_circle_fill_loop w h x0 y0 (r.natAbs + 2) r 0 (-(2 * r) + 3) buf
  else
    draw_circle_loop w h x0 y0 (r.natAbs + 2) r 0 (-(2 * r) + 3) buf

/-- C4: the fill loop's strict bound `xd < x` never stamps the boundary
offset, so the filled circle does not contain the outline: for the circle of
radius 1 centered at (2,2) on a cleared 8×8 surface, the outline lights
(3,2) (and 3 more boundary pixels) while the fill lights only the single
center pixel (2,2) — the outline is not a subset of the fill. -/
theorem circle_outline_not_subset_of_fill :
    get_pixel 8 (draw_circle 8 8 (List.replicate 8 0) 2 2 1 false) 3 2 = true ∧
    get_pixel 8 (draw_circle 8 8 (List.replicate 8 0) 2 2 1 true) 3 2 = false ∧
    lit_count 8 8 (draw_circle 8 8 (List.replicate 8 0) 2 2 1 false) = 4 ∧
    lit_count 8 8 (draw_circle 8 8 (List.replicate 8 0) 2 2 1 true) = 1 ∧
    get_pixel 8 (draw_circle 8 8 (List.replicate 8 0) 2 2 1 true) 2 2 = true := by
  decide

/-- `HASH_TABLE_SIZE` (mgui.h:29). -/
def HASH_TABLE_SIZE : Nat := 20

/-- `mgui_string_map::djb2_hash` (mgui.h:800-808): `hash = 5381`, then
`hash = hash * 33 + c` for every byte `c`, on an `unsigned long`
(32-bit on the RP2040 target of this repository, hence the `% 2^32`;
no string considered below ever reaches the wrap), reduced
`% HASH_TABLE_SIZE` at the end. -/
def djb2_hash (s : String) : Nat :=
  (s.data.foldl (fun hsh c => (hsh * 33 + c.toNat) % 4294967296) 5381) % HASH_TABLE_SIZE

/-- One bucket of `mgui_string_map`: the `mgui_list<mgui_pair<mgui_string, V*>>`
in insertion order (`add` appends at the tail). -/
abbrev Bucket (V : Type) := List (String × V)

/-- Bucket walk of `mgui_string_map::insert` (mgui.h:697-723): overwrite the
value of the first node whose key matches, otherwise append the pair. -/
def bucket_insert {V : Type} (key : String) (v : V) : Bucket V → Bucket V
  | [] => [(key, v)]
  | (k, w) :: rest => if k = key then (k, v) :: rest else (k, w) :: bucket_insert key v rest

/-- Bucket walk of `mgui_string_map::get` (mgui.h:729-747): the value of the
first node whose key matches, else null (`none`). -/
def bucket_get {V : Type} (key : String) : Bucket V → Option V
  | [] => none
  | (k, w) :: rest => if k = key then some w else bucket_get key rest

/-- Bucket walk of `mgui_string_map::remove` (mgui.h:754-772): the source
finds the first node whose key matches and hands its pair to
`mgui_list::remove`, which unlinks the first node equal to it (key and
value-pointer equality); since `insert` keeps bucket keys unique and value
pointers are distinct, that is exactly the first key match. -/
def bucket_remove {V : Type} (key : String) : Bucket V → Bucket V
  | [] => []
  | (k, w) :: rest => if k = key then rest else (k, w) :: bucket_remove key rest

/-- `mgui_string_map` (mgui.h:666): `HASH_TABLE_SIZE` buckets indexed by
`djb2_hash`; only indices below `HASH_TABLE_SIZE` are ever used. -/
structure mgui_string_map (V : Type) where
  table : Nat → Bucket V

def map_empty {V : Type} : mgui_string_map V := ⟨fun _ => []⟩

def map_insert {V : Type} (m : mgui_string_map V) (key : String) (v : V) :
    mgui_string_map V :=
  ⟨fun i => if i = djb2_hash key then bucket_insert key v (m.table i) else m.table i⟩

def map_get {V : Type} (m : mgui_string_map V) (key : String) : Option V :=
  bucket_get key (m.table (djb2_hash key))

def map_remove {V : Type} (m : mgui_string_map V) (key : String) :
    mgui_string_map V :=
  ⟨fun i => if i = djb2_hash key then bucket_remove key (m.table i) else m.table i⟩

theorem bucket_get_of_absent {V : Type} (key : String) (b : Bucket V)
    (habs : ∀ p ∈ b, p.1 ≠ key) : bucket_get key b = none := by
  induction b with
  | nil => rfl
  | cons p rest ih =>
    obtain ⟨k, w⟩ := p
    have hk : k ≠ key := habs (k, w) (List.mem_cons_self _ _)
    simp only [bucket_get, if_neg hk]
    exact ih fun q hq => habs q (List.mem_cons_of_mem _ hq)

/-- The C8 scenario map: insert "a", "ab", "abc" with values 1, 2, 3,
then remove "ab". -/
def c8_map : mgui_string_map Nat :=
  map_remove (map_insert (map_insert (map_insert map_empty "a" 1) "ab" 2) "abc" 3) "ab"

/-- C8: after inserting "a", "ab", "abc" and removing "ab", the keys "a" and
"abc" still map to their inserted values while "ab" yields null; and any key
absent from its bucket yields null. -/
theorem string_map_insert_remove_get
    {V : Type} (m : mgui_string_map V) (key : String)
    (habs : ∀ p ∈ m.table (djb2_hash key), p.1 ≠ key) :
    map_get c8_map "a" = some 1 ∧
    map_get c8_map "abc" = some 3 ∧
    map_get c8_map "ab" = none ∧
    map_get m key = none :=
  ⟨by decide, by decide, by decide, bucket_get_of_absent key _ habs⟩

theorem string_map_insert_remove_get_witness :
    map_get c8_map "a" = some 1 ∧ map_get (@map_empty Nat) "zz" = none :=
  ⟨(string_map_insert_remove_get (@map_empty Nat) "zz" (by intro p hp; cases hp)).1,
   (string_map_insert_remove_get (@map_empty Nat) "zz" (by intro p hp; cases hp)).2.2.2⟩

/-- `mgui_menu_item_type` (mgui.h:2637-2655). -/
inductive mgui_menu_item_type where
  | None
  | Check
  | Menu
  | ReturnToParent
deriving DecidableEq

/-- The mutable state of one `mgui_menu_item` (mgui.h:2657).  Items are heap
objects shared by pointer; they are identified below by a `Nat` id.  A
sub-menu is stored as the referenced `mgui_menu_property` value: its item-id
sequence and its `selected_index_`. -/
structure MenuItemState where
  on_press : Bool
  on_selected : Bool
  is_checked : Bool
  previous_on_press : Bool
  item_type : mgui_menu_item_type
  child_menu : Option (List Nat × Nat)
deriving DecidableEq

/-- Pointwise update of a heap of item states (a store write through an
item pointer). -/
def fun_set {α : Type} (hp : Nat → α) (i : Nat) (v : α) : Nat → α :=
  fun j => if j = i then v else hp j

/-- `mgui_menu_property` (mgui.h:2620-2633): value-semantics context of one
menu level — the ordered item references and the selected index.  Copying it
copies the reference list (`mgui_list` deep-copies its nodes) and the index,
while the items themselves stay shared. -/
structure mgui_menu_property where
  menu_item : List Nat
  selected_index : Nat
deriving DecidableEq

/-- The state of one `mgui_menu` (mgui.h:2899) together with the item heap:
current property `p`, the history stack `moved_from_` (head = top),
the edge-detection flags `on_enter_` / `on_return_`, the viewport fields
`item_view_count_` and `item_first_node_` (modelled as the index of that
node in `p.menu_item`, `none` for null). -/
structure MenuState where
  p : mgui_menu_property
  moved_from : List mgui_menu_property
  on_enter : Bool
  on_return : Bool
  item_view_count : Nat
  item_first : Option Nat
  heap : Nat → MenuItemState

/-- `p.menu_item_.get(p.selected_index_)` — the id of the selected item.
The source `mgui_list::get` walks without a bounds check (undefined behavior
out of range); every state reasoned about keeps the index in range, where it
agrees with `getD`. -/
def menu_selected_id (s : MenuState) : Nat :=
  s.p.menu_item.getD s.p.selected_index 0

/-- `mgui_menu::set_selected_index` (mgui.h:3008-3018):
`first = max(0, index + 1 - item_view_count_)` (an `int` computation, here
truncated subtraction), and `item_first_node_ = get_node(first)` when
`first < count`, else null. -/
def menu_set_selected_index (s : MenuState) (idx : Nat) : MenuState :=
  let first := idx + 1 - s.item_view_count
  { s with
    p := { s.p with selected_index := idx }
    item_first := if first < s.p.menu_item.length then some first else none }

/-- `mgui_menu::add` (mgui.h:2976-2983): append the item; if it is the only
item, select index 0 and set its selected flag. -/
def menu_add (s : MenuState) (i : Nat) : MenuState :=
  let s1 := { s with p := { s.p with menu_item := s.p.menu_item ++ [i] } }
  if s1.p.menu_item.length = 1 then
    let s2 := menu_set_selected_index s1 0
    { s2 with heap := fun_set s2.heap i { s2.heap i with on_selected := true } }
  else s1

/-- `mgui_menu::set_on_return` (mgui.h:3036-3046): edge-guarded; on a rising
edge with a non-empty history stack, pop it into the current property. -/
def menu_set_on_return (s : MenuState) (v : Bool) : MenuState :=
  if s.on_return = v then s
  else
    let s1 := { s with on_return := v }
    match v, s1.moved_from with
    | true, q :: rest => { s1 with p := q, moved_from := rest }
    | _, _ => s1

/-- `mgui_menu::set_on_enter` (mgui.h:3052-3079): edge-guarded.  On any edge
the selected item is fetched; a rising edge on a `ReturnToParent` item with a
non-empty stack pops it (short-circuiting).  Otherwise the item's press flag
is set to the new value and, on a rising edge when the item references a
sub-menu, the current property is pushed (by value) and replaced by the
sub-menu's item list and selected index.  (`item_first_node_` is left
untouched by the source here.) -/
def menu_set_on_enter (s : MenuState) (v : Bool) : MenuState :=
  if s.on_enter = v then s
  else
    let s1 := { s with on_enter := v }
    let iid := menu_selected_id s1
    if v = true ∧ (s1.heap iid).item_type = mgui_menu_item_type.ReturnToParent ∧
        s1.moved_from ≠ [] then
      match s1.moved_from with
      | q :: rest => { s1 with p := q, moved_from := rest }
      | [] => s1
    else
      let s2 := { s1 with
        heap := fun_set s1.heap iid { s1.heap iid with on_press := v } }
      match v, (s2.heap iid).child_menu with
      | true, some (items, idx) =>
          { s2 with
            moved_from := s2.p :: s2.moved_from
            p := { menu_item := items, selected_index := idx } }
      | _, _ => s2

/-- The fragment of `mgui_menu_item::update` (mgui.h:2699-2733) that mutates
item state: in the `Check` case,
`if (!previous_on_press_ && get_on_press()) is_checked_ = !is_checked_;
previous_on_press_ = get_on_press();`.  All other cases only draw. -/
def menu_item_update (it : MenuItemState) : MenuItemState :=
  match it.item_type with
  | mgui_menu_item_type.Check =>
    let it1 := if it.previous_on_press = false ∧ it.on_press = true
               then { it with is_checked := !it.is_checked } else it
    { it1 with previous_on_press := it.on_press }
  | _ => it

/-- `mgui_menu::update` (mgui.h:2955-2970): walk up to `item_view_count_`
nodes starting at `item_first_node_` (stopping at the end of the list) and
update each visited item. -/
def menu_update (s : MenuState) : MenuState :=
  match s.item_first with
  | none => s
  | some fi =>
    let window := (s.p.menu_item.drop fi).take s.item_view_count
    { s with heap := window.foldl (fun hp i => fun_set hp i (menu_item_update (hp i))) s.heap }

/-- One orchestration frame for a menu whose enter signal has level `v`:
the input event handler forwards the level to `set_on_enter`, then
`mgui::update_lcd` calls the menu's `update`. -/
def menu_frame (s : MenuState) (v : Bool) : MenuState :=
  menu_update (menu_set_on_enter s v)

theorem menu_set_on_enter_submenu (s : MenuState) (subItems : List Nat) (subIdx : Nat)
    (hE : s.on_enter = false)
    (hty : (s.heap (menu_selected_id s)).item_type ≠ mgui_menu_item_type.ReturnToParent)
    (hsub : (s.heap (menu_selected_id s)).child_menu = some (subItems, subIdx)) :
    menu_set_on_enter s true =
      { s with on_enter := true
               moved_from := s.p :: s.moved_from
               p := ⟨subItems, subIdx⟩
               heap := fun_set s.heap (menu_selected_id s)
                 { s.heap (menu_selected_id s) with on_press := true } } := by
  unfold menu_set_on_enter
  rw [if_neg (by simp [hE])]
  have hid : menu_selected_id { s with on_enter := true } = menu_selected_id s := rfl
  simp only [hid]
  rw [if_neg (by simp [hty])]
  simp only [fun_set, if_pos rfl, if_true]
  rw [hsub]

theorem menu_set_on_return_pop (s : MenuState) (q : mgui_menu_property)
    (rest : List mgui_menu_property)
    (hR : s.on_return = false) (hm : s.moved_from = q :: rest) :
    menu_set_on_return s true = { s with on_return := true, p := q, moved_from := rest } := by
  unfold menu_set_on_return
  rw [if_neg (by simp [hR])]
  simp only [hm]

/-- C2: when the selected item A of a menu references a sub-menu, a rising
edge of the enter signal pushes the current property (by value) onto the
history stack and installs the sub-menu's property, so the selected item
becomes the sub-menu's first item; a subsequent rising edge of the return
signal pops the saved property, restoring both the selected item A and the
pre-enter selected index. -/
theorem menu_enter_return_round_trip (s : MenuState) (subItems : List Nat)
    (hE : s.on_enter = false) (hR : s.on_return = false)
    (hty : (s.heap (menu_selected_id s)).item_type = mgui_menu_item_type.Menu)
    (hsub : (s.heap (menu_selected_id s)).child_menu = some (subItems, 0))
    (hne : subItems ≠ []) :
    (menu_set_on_enter s true).moved_from = s.p :: s.moved_from ∧
    menu_selected_id (menu_set_on_enter s true) = subItems.headD 0 ∧
    (menu_set_on_return (menu_set_on_enter s true) true).p = s.p ∧
    menu_selected_id (menu_set_on_return (menu_set_on_enter s true) true)
      = menu_selected_id s ∧
    (menu_set_on_return (menu_set_on_enter s true) true).p.selected_index
      = s.p.selected_index := by
  have hty' : (s.heap (menu_selected_id s)).item_type ≠ mgui_menu_item_type.ReturnToParent := by
    rw [hty]; intro hcon; cases hcon
  have h1 := menu_set_on_enter_submenu s subItems 0 hE hty' hsub
  have h2 := menu_set_on_return_pop (menu_set_on_enter s true) s.p s.moved_from
    (by rw [h1]; exact hR) (by rw [h1])
  refine ⟨by rw [h1], ?_, by rw [h2], by rw [h2]; rfl, by rw [h2]⟩
  rw [h1]
  simp only [menu_selected_id]
  cases subItems with
  | nil => exact absurd rfl hne
  | cons a t => rfl

/-- Heap for the C2 scenario of the spec: item 0 = A (sub-menu → [1]),
item 1 = B (ReturnToParent), items 2 and 3 = C and D (plain). -/
def c2_heap : Nat → MenuItemState := fun i =>
  if i = 0 then ⟨false, true, false, false, mgui_menu_item_type.Menu, some ([1], 0)⟩
  else if i = 1 then ⟨false, false, false, false, mgui_menu_item_type.ReturnToParent, none⟩
  else ⟨false, false, false, false, mgui_menu_item_type.None, none⟩

/-- Menu [A, C, D] with A selected, empty history. -/
def c2_state : MenuState :=
  { p := ⟨[0, 2, 3], 0⟩, moved_from := [], on_enter := false, on_return := false,
    item_view_count := 4, item_first := some 0, heap := c2_heap }

theorem menu_enter_return_round_trip_witness :
    (menu_set_on_enter c2_state true).moved_from = c2_state.p :: c2_state.moved_from ∧
    menu_selected_id (menu_set_on_enter c2_state true) = List.headD [1] 0 ∧
    (menu_set_on_return (menu_set_on_enter c2_state true) true).p = c2_state.p ∧
    menu_selected_id (menu_set_on_return (menu_set_on_enter c2_state true) true)
      = menu_selected_id c2_state ∧
    (menu_set_on_return (menu_set_on_enter c2_state true) true).p.selected_index
      = c2_state.p.selected_index :=
  menu_enter_return_round_trip c2_state [1] rfl rfl rfl rfl (by decide)

theorem menu_fold_not_mem (l : List Nat) (hp : Nat → MenuItemState) (X : Nat)
    (hX : X ∉ l) :
    (l.foldl (fun hp i => fun_set hp i (menu_item_update (hp i))) hp) X = hp X := by
  induction l generalizing hp with
  | nil => rfl
  | cons a t ih =>
    have haX : X ≠ a := fun hcon => hX (hcon ▸ List.mem_cons_self a t)
    simp only [List.foldl_cons]
    rw [ih _ (fun hm => hX (List.mem_cons_of_mem a hm))]
    simp [fun_set, haX]

/-- An item visited exactly once by the update walk is updated exactly once. -/
theorem menu_fold_once (w1 w2 : List Nat) (hp : Nat → MenuItemState) (X : Nat)
    (h1 : X ∉ w1) (h2 : X ∉ w2) :
    ((w1 ++ X :: w2).foldl (fun hp i => fun_set hp i (menu_item_update (hp i))) hp) X
      = menu_item_update (hp X) := by
  rw [List.foldl_append]
  simp only [List.foldl_cons]
  rw [menu_fold_not_mem _ _ _ h2]
  simp only [fun_set, if_pos rfl, if_true]
  rw [menu_fold_not_mem _ _ _ h1]

theorem menu_set_on_enter_plain (s : MenuState) (v : Bool)
    (hne : ¬ s.on_enter = v)
    (hty : (s.heap (menu_selected_id s)).item_type ≠ mgui_menu_item_type.ReturnToParent)
    (hch : (s.heap (menu_selected_id s)).child_menu = none) :
    menu_set_on_enter s v =
      { s with on_enter := v
               heap := fun_set s.heap (menu_selected_id s)
                 { s.heap (menu_selected_id s) with on_press := v } } := by
  unfold menu_set_on_enter
  rw [if_neg hne]
  have hid : menu_selected_id { s with on_enter := v } = menu_selected_id s := rfl
  simp only [hid]
  rw [if_neg (by simp [hty])]
  simp only [fun_set, if_pos rfl, if_true]
  rw [hch]
  cases v <;> rfl

theorem menu_update_fields (s : MenuState) (fi : Nat) (hfi : s.item_first = some fi) :
    menu_update s =
      { s with heap := (((s.p.menu_item.drop fi).take s.item_view_count).foldl
          (fun hp i => fun_set hp i (menu_item_update (hp i))) s.heap) } := by
  unfold menu_update
  rw [hfi]

theorem menu_update_heap_at (s : MenuState) (fi : Nat) (w1 w2 : List Nat) (X : Nat)
    (hfi : s.item_first = some fi)
    (hw : (s.p.menu_item.drop fi).take s.item_view_count = w1 ++ X :: w2)
    (h1 : X ∉ w1) (h2 : X ∉ w2) :
    (menu_update s).heap X = menu_item_update (s.heap X) := by
  rw [menu_update_fields s fi hfi]
  show (((s.p.menu_item.drop fi).take s.item_view_count).foldl
    (fun hp i => fun_set hp i (menu_item_update (hp i))) s.heap) X = _
  rw [hw, menu_fold_once _ _ _ _ h1 h2]

/-- One frame of a menu whose selected item is a `Check` item without a
sub-menu and which appears exactly once in the visible window: the frame
leaves the navigation state alone, records the enter level, and updates the
item once (with its press flag set to the frame's enter level whenever the
level changed). -/
theorem menu_frame_check (s : MenuState) (fi : Nat) (w1 w2 : List Nat) (v : Bool)
    (hty : (s.heap (menu_selected_id s)).item_type = mgui_menu_item_type.Check)
    (hch : (s.heap (menu_selected_id s)).child_menu = none)
    (hfi : s.item_first = some fi)
    (hw : (s.p.menu_item.drop fi).take s.item_view_count
            = w1 ++ menu_selected_id s :: w2)
    (h1 : menu_selected_id s ∉ w1) (h2 : menu_selected_id s ∉ w2) :
    (menu_frame s v).p = s.p ∧
    (menu_frame s v).item_first = s.item_first ∧
    (menu_frame s v).item_view_count = s.item_view_count ∧
    (menu_frame s v).on_enter = v ∧
    (menu_frame s v).heap (menu_selected_id s)
      = menu_item_update (if s.on_enter = v then s.heap (menu_selected_id s)
          else { s.heap (menu_selected_id s) with on_press := v }) := by
  have hty' : (s.heap (menu_selected_id s)).item_type
      ≠ mgui_menu_item_type.ReturnToParent := by
    rw [hty]; intro hcon; cases hcon
  by_cases hev : s.on_enter = v
  · have hs : menu_set_on_enter s v = s := by
      unfold menu_set_on_enter; rw [if_pos hev]
    have hu := menu_update_fields s fi hfi
    have hX := menu_update_heap_at s fi w1 w2 (menu_selected_id s) hfi hw h1 h2
    refine ⟨?_, ?_, ?_, ?_, ?_⟩
    · show (menu_update (menu_set_on_enter s v)).p = s.p
      rw [hs, hu]
    · show (menu_update (menu_set_on_enter s v)).item_first = s.item_first
      rw [hs, hu]
    · show (menu_update (menu_set_on_enter s v)).item_view_count = s.item_view_count
      rw [hs, hu]
    · show (menu_update (menu_set_on_enter s v)).on_enter = v
      rw [hs, hu]; exact hev
    · show (menu_update (menu_set_on_enter s v)).heap (menu_selected_id s) = _
      rw [hs, hX, if_pos hev]
  · have hs := menu_set_on_enter_plain s v hev hty' hch
    have hfi2 : (menu_set_on_enter s v).item_first = some fi := by
      rw [hs]; exact hfi
    have hu := menu_update_fields (menu_set_on_enter s v) fi hfi2
    have hid2 : menu_selected_id (menu_set_on_enter s v) = menu_selected_id s := by
      rw [hs]; rfl
    have hw2 : (((menu_set_on_enter s v).p.menu_item.drop fi).take
        (menu_set_on_enter s v).item_view_count)
          = w1 ++ menu_selected_id s :: w2 := by
      rw [hs]; exact hw
    have hX := menu_update_heap_at (menu_set_on_enter s v) fi w1 w2
      (menu_selected_id s) hfi2 hw2 h1 h2
    refine ⟨?_, ?_, ?_, ?_, ?_⟩
    · show (menu_update (menu_set_on_enter s v)).p = s.p
      rw [hu, hs]
    · show (menu_update (menu_set_on_enter s v)).item_first = s.item_first
      rw [hu, hs]
    · show (menu_update (menu_set_on_enter s v)).item_view_count = s.item_view_count
      rw [hu, hs]
    · show (menu_update (menu_set_on_enter s v)).on_enter = v
      rw [hu, hs]
    · show (menu_update (menu_set_on_enter s v)).heap (menu_selected_id s) = _
      rw [hX, if_neg hev, hs]
      simp [fun_set]

theorem menu_item_update_check (it : MenuItemState)
    (h : it.item_type = mgui_menu_item_type.Check) :
    menu_item_update it =
      { it with
        is_checked := if it.previous_on_press = false ∧ it.on_press = true
                      then !it.is_checked else it.is_checked
        previous_on_press := it.on_press } := by
  obtain ⟨press, sel, chk, prev, ty, ch⟩ := it
  subst h
  by_cases hc : prev = false ∧ press = true
  · simp [menu_item_update, hc]
  · simp [menu_item_update, hc]

/-- C5: for a selected `Check` item (shown in the window exactly once, press
edge state clear), the checked flag toggles exactly once per rising edge of
the enter signal: frames with levels true, true, false, true toggle it on
the first frame, leave it alone while the signal stays true and after the
release, and toggle it back on the second rising edge. -/
theorem check_item_edge_toggle (s : MenuState) (fi : Nat) (w1 w2 : List Nat)
    (hE : s.on_enter = false)
    (hty : (s.heap (menu_selected_id s)).item_type = mgui_menu_item_type.Check)
    (hch : (s.heap (menu_selected_id s)).child_menu = none)
    (hprev : (s.heap (menu_selected_id s)).previous_on_press = false)
    (hfi : s.item_first = some fi)
    (hw : (s.p.menu_item.drop fi).take s.item_view_count
            = w1 ++ menu_selected_id s :: w2)
    (h1 : menu_selected_id s ∉ w1) (h2 : menu_selected_id s ∉ w2) :
    ((menu_frame s true).heap (menu_selected_id s)).is_checked
        = !(s.heap (menu_selected_id s)).is_checked ∧
    ((menu_frame (menu_frame s true) true).heap (menu_selected_id s)).is_checked
        = !(s.heap (menu_selected_id s)).is_checked ∧
    ((menu_frame (menu_frame (menu_frame s true) true) false).heap
        (menu_selected_id s)).is_checked
        = !(s.heap (menu_selected_id s)).is_checked ∧
    ((menu_frame (menu_frame (menu_frame (menu_frame s true) true) false) true).heap
        (menu_selected_id s)).is_checked
        = (s.heap (menu_selected_id s)).is_checked := by
  rcases hR : s.heap (menu_selected_id s) with ⟨p0, s0, c0, pr0, ty0, ch0⟩
  have hty' : ty0 = mgui_menu_item_type.Check := by rw [hR] at hty; exact hty
  have hch' : ch0 = none := by rw [hR] at hch; exact hch
  have hprev' : pr0 = false := by rw [hR] at hprev; exact hprev
  subst hty'
  subst hch'
  subst hprev'
  obtain ⟨hp1, hif1, hvc1, hoe1, hh1⟩ :=
    menu_frame_check s fi w1 w2 true (by rw [hR]) (by rw [hR]) hfi hw h1 h2
  have hX1 : menu_selected_id (menu_frame s true) = menu_selected_id s := by
    unfold menu_selected_id; rw [hp1]
  have e1 : (menu_frame s true).heap (menu_selected_id s)
      = ⟨true, s0, !c0, true, mgui_menu_item_type.Check, none⟩ := by
    rw [hh1, if_neg (by rw [hE]; intro hcon; cases hcon), hR]
    simp [menu_item_update]
  have hty1 : ((menu_frame s true).heap (menu_selected_id (menu_frame s true))).item_type
      = mgui_menu_item_type.Check := by rw [hX1, e1]
  have hch1 : ((menu_frame s true).heap (menu_selected_id (menu_frame s true))).child_menu
      = none := by rw [hX1, e1]
  have hfi1 : (menu_frame s true).item_first = some fi := by rw [hif1]; exact hfi
  have hw1 : ((menu_frame s true).p.menu_item.drop fi).take
        (menu_frame s true).item_view_count
      = w1 ++ menu_selected_id (menu_frame s true) :: w2 := by
    rw [hp1, hvc1, hX1]; exact hw
  have h11 : menu_selected_id (menu_frame s true) ∉ w1 := by rw [hX1]; exact h1
  have h21 : menu_selected_id (menu_frame s true) ∉ w2 := by rw [hX1]; exact h2
  obtain ⟨hp2, hif2, hvc2, hoe2, hh2⟩ :=
    menu_frame_check (menu_frame s true) fi w1 w2 true hty1 hch1 hfi1 hw1 h11 h21
  rw [hX1] at hh2
  have hX2 : menu_selected_id (menu_frame (menu_frame s true) true)
      = menu_selected_id s := by
    unfold menu_selected_id; rw [hp2, hp1]
  have e2 : (menu_frame (menu_frame s true) true).heap (menu_selected_id s)
      = ⟨true, s0, !c0, true, mgui_menu_item_type.Check, none⟩ := by
    rw [hh2, if_pos hoe1, e1]
    simp [menu_item_update]
  have hty2 : ((menu_frame (menu_frame s true) true).heap
      (menu_selected_id (menu_frame (menu_frame s true) true))).item_type
      = mgui_menu_item_type.Check := by rw [hX2, e2]
  have hch2 : ((menu_frame (menu_frame s true) true).heap
      (menu_selected_id (menu_frame (menu_frame s true) true))).child_menu
      = none := by rw [hX2, e2]
  have hfi2 : (menu_frame (menu_frame s true) true).item_first = some fi := by
    rw [hif2]; exact hfi1
  have hw2 : (((menu_frame (menu_frame s true) true).p.menu_item.drop fi).take
        (menu_frame (menu_frame s true) true).item_view_count)
      = w1 ++ menu_selected_id (menu_frame (menu_frame s true) true) :: w2 := by
    rw [hp2, hvc2, hX2, hp1, hvc1]; exact hw
  have h12 : menu_selected_id (menu_frame (menu_frame s true) true) ∉ w1 := by
    rw [hX2]; exact h1
  have h22 : menu_selected_id (menu_frame (menu_frame s true) true) ∉ w2 := by
    rw [hX2]; exact h2
  obtain ⟨hp3, hif3, hvc3, hoe3, hh3⟩ :=
    menu_frame_check (menu_frame (menu_frame s true) true) fi w1 w2 false
      hty2 hch2 hfi2 hw2 h12 h22
  rw [hX2] at hh3
  have hX3 : menu_selected_id (menu_frame (menu_frame (menu_frame s true) true) false)
      = menu_selected_id s := by
    unfold menu_selected_id; rw [hp3, hp2, hp1]
  have e3 : (menu_frame (menu_frame (menu_frame s true) true) false).heap
        (menu_selected_id s)
      = ⟨false, s0, !c0, false, mgui_menu_item_type.Check, none⟩ := by
    rw [hh3, if_neg (by rw [hoe2]; intro hcon; cases hcon), e2]
    simp [menu_item_update]
  have hty3 : ((menu_frame (menu_frame (menu_frame s true) true) false).heap
      (menu_selected_id (menu_frame (menu_frame (menu_frame s true) true) false))).item_type
      = mgui_menu_item_type.Check := by rw [hX3, e3]
  have hch3 : ((menu_frame (menu_frame (menu_frame s true) true) false).heap
      (menu_selected_id (menu_frame (menu_frame (menu_frame s true) true) false))).child_menu
      = none := by rw [hX3, e3]
  have hfi3 : (menu_frame (menu_frame (menu_frame s true) true) false).item_first
      = some fi := by rw [hif3]; exact hfi2
  have hw3 : (((menu_frame (menu_frame (menu_frame s true) true) false).p.menu_item.drop
        fi).take (menu_frame (menu_frame (menu_frame s true) true) false).item_view_count)
      = w1 ++ menu_selected_id (menu_frame (menu_frame (menu_frame s true) true) false)
          :: w2 := by
    rw [hp3, hvc3, hX3, hp2, hvc2, hp1, hvc1]; exact hw
  have h13 : menu_selected_id (menu_frame (menu_frame (menu_frame s true) true) false)
      ∉ w1 := by rw [hX3]; exact h1
  have h23 : menu_selected_id (menu_frame (menu_frame (menu_frame s true) true) false)
      ∉ w2 := by rw [hX3]; exact h2
  obtain ⟨hp4, hif4, hvc4, hoe4, hh4⟩ :=
    menu_frame_check (menu_frame (menu_frame (menu_frame s true) true) false)
      fi w1 w2 true hty3 hch3 hfi3 hw3 h13 h23
  rw [hX3] at hh4
  have e4 : (menu_frame (menu_frame (menu_frame (menu_frame s true) true) false)
        true).heap (menu_selected_id s)
      = ⟨true, s0, c0, true, mgui_menu_item_type.Check, none⟩ := by
    rw [hh4, if_neg (by rw [hoe3]; intro hcon; cases hcon), e3]
    simp [menu_item_update]
  exact ⟨by rw [e1], by rw [e2], by rw [e3], by rw [e4]⟩

/-- Heap for the C5 scenario of the test suite: item 1 is a Check item,
the rest are plain items. -/
def c5_heap : Nat → MenuItemState := fun i =>
  if i = 1 then ⟨false, true, false, false, mgui_menu_item_type.Check, none⟩
  else ⟨false, false, false, false, mgui_menu_item_type.None, none⟩

/-- Menu [item, item2(Check), item3, item4, item5] with item2 selected,
4 items per view. -/
def c5_state : MenuState :=
  { p := ⟨[0, 1, 2, 3, 4], 1⟩, moved_from := [], on_enter := false, on_return := false,
    item_view_count := 4, item_first := some 0, heap := c5_heap }

theorem check_item_edge_toggle_witness :
    ((menu_frame c5_state true).heap (menu_selected_id c5_state)).is_checked
        = !(c5_state.heap (menu_selected_id c5_state)).is_checked ∧
    ((menu_frame (menu_frame c5_state true) true).heap
        (menu_selected_id c5_state)).is_checked
        = !(c5_state.heap (menu_selected_id c5_state)).is_checked ∧
    ((menu_frame (menu_frame (menu_frame c5_state true) true) false).heap
        (menu_selected_id c5_state)).is_checked
        = !(c5_state.heap (menu_selected_id c5_state)).is_checked ∧
    ((menu_frame (menu_frame (menu_frame (menu_frame c5_state true) true) false)
        true).heap (menu_selected_id c5_state)).is_checked
        = (c5_state.heap (menu_selected_id c5_state)).is_checked :=
  check_item_edge_toggle c5_state 0 [0] [2, 3]
    rfl rfl rfl rfl rfl rfl (by decide) (by decide)

/-- The two flags of `mgui_core_ui` (mgui.h:2433-2481). -/
structure UiCoreState where
  on_press : Bool
  on_selected : Bool
deriving DecidableEq

/-- State of one `mgui_ui_group` (mgui.h:3180) plus the heap of the
referenced `mgui_core_ui` objects (identified by `Nat` ids). -/
structure GroupState where
  items : List Nat
  selected_index : Nat
  heap : Nat → UiCoreState

/-- `mgui_ui_group::reset_selection` (mgui.h:3317-3333): index back to 0,
first element gets press false / selected true, every later node gets press
false / selected false, in list order. -/
def reset_selection (s : GroupState) : GroupState :=
  let s1 := { s with selected_index := 0 }
  match s1.items with
  | [] => s1
  | a :: rest =>
    { s1 with heap := (rest.foldl (fun hp i => fun_set hp i ⟨false, false⟩)
        (fun_set s1.heap a ⟨false, true⟩)) }

/-- `mgui_ui_group::add` (mgui.h:3231-3234): append, then `reset_selection`. -/
def group_add (s : GroupState) (i : Nat) : GroupState :=
  reset_selection { s with items := s.items ++ [i] }

/-- `mgui_ui_group::remove` (mgui.h:3241-3244): `mgui_list::remove` unlinks
the first element equal to the reference, then `reset_selection`. -/
def group_remove (s : GroupState) (i : Nat) : GroupState :=
  reset_selection { s with items := s.items.erase i }

/-- The three setter calls shared by `set_on_select_next` / `set_on_select_prev`:
`get(old)->set_on_selected(false); get(old)->set_on_press(false);
get(new)->set_on_selected(true);` as a heap transformation (old element `i0`,
new element `i1`). -/
def select_shift_heap (hp : Nat → UiCoreState) (i0 i1 : Nat) : Nat → UiCoreState :=
  let hp1 := fun_set hp i0 { hp i0 with on_selected := false }
  let hp2 := fun_set hp1 i0 { hp1 i0 with on_press := false }
  fun_set hp2 i1 { hp2 i1 with on_selected := true }

/-- `mgui_ui_group::set_on_select_next` (mgui.h:3257-3268): no-op on a false
level; otherwise, when `selected_index_ < count - 1`, clear the old
element's selected and press flags, advance the index, set the new
element's selected flag. -/
def group_select_next (s : GroupState) (v : Bool) : GroupState :=
  if v = false then s
  else if s.selected_index < s.items.length - 1 then
    { s with selected_index := s.selected_index + 1
             heap := select_shift_heap s.heap (s.items.getD s.selected_index 0)
               (s.items.getD (s.selected_index + 1) 0) }
  else s

/-- `mgui_ui_group::set_on_select_prev` (mgui.h:3276-3290): symmetric. -/
def group_select_prev (s : GroupState) (v : Bool) : GroupState :=
  if v = false then s
  else if 0 < s.selected_index then
    { s with selected_index := s.selected_index - 1
             heap := select_shift_heap s.heap (s.items.getD s.selected_index 0)
               (s.items.getD (s.selected_index - 1) 0) }
  else s

/-- `mgui_ui_group::set_on_press` (mgui.h:3297-3299): set the press flag of
the element at the selected index.  On an empty group the source
dereferences a null node (undefined behavior); the valid op sequences below
therefore require a non-empty group for this call. -/
def group_set_on_press (s : GroupState) (v : Bool) : GroupState :=
  let i0 := s.items.getD s.selected_index 0
  { s with heap := fun_set s.heap i0 { s.heap i0 with on_press := v } }

/-- The group operations named by the claim. -/
inductive GroupOp where
  | add (i : Nat)
  | remove (i : Nat)
  | select_next (v : Bool)
  | select_prev (v : Bool)
  | press (v : Bool)

def group_step (s : GroupState) : GroupOp → GroupState
  | GroupOp.add i => group_add s i
  | GroupOp.remove i => group_remove s i
  | GroupOp.select_next v => group_select_next s v
  | GroupOp.select_prev v => group_select_prev s v
  | GroupOp.press v => group_set_on_press s v

def group_run (s : GroupState) : List GroupOp → GroupState
  | [] => s
  | op :: rest => group_run (group_step s op) rest

/-- A freshly constructed group (mgui.h:3182-3186): empty list, index 0;
`hp0` gives the flags of the caller-owned ui objects (freshly constructed
`mgui_core_ui` objects have both flags false). -/
def group_init (hp0 : Nat → UiCoreState) : GroupState :=
  { items := [], selected_index := 0, heap := hp0 }

/-- Validity of an op sequence: an element may only be added while absent
(no duplicate references), and `set_on_press` needs a non-empty group
(the source would dereference null otherwise). -/
def group_ops_ok (s : GroupState) : List GroupOp → Bool
  | [] => true
  | op :: rest =>
    (match op with
     | GroupOp.add i => !(decide (i ∈ s.items))
     | GroupOp.press _ => !(decide (s.items = []))
     | _ => true) && group_ops_ok (group_step s op) rest

/-- Number of group elements whose selected flag is set. -/
def group_selected_count (s : GroupState) : Nat :=
  s.items.countP (fun i => (s.heap i).on_selected)

/-- The inductive invariant: the reference list has no duplicates and, when
non-empty, the selected index is in range and an element's selected flag is
set exactly at that index. -/
def group_inv (s : GroupState) : Prop :=
  s.items.Nodup ∧
  (s.items ≠ [] →
    s.selected_index < s.items.length ∧
    ∀ j, j < s.items.length →
      ((s.heap (s.items.getD j 0)).on_selected = true ↔ j = s.selected_index))

theorem group_fold_clear_not_mem (l : List Nat) (hp : Nat → UiCoreState) (i : Nat)
    (hi : i ∉ l) :
    (l.foldl (fun hp i => fun_set hp i ⟨false, false⟩) hp) i = hp i := by
  induction l generalizing hp with
  | nil => rfl
  | cons a t ih =>
    simp only [List.foldl_cons]
    rw [ih _ (fun hm => hi (List.mem_cons_of_mem _ hm))]
    have hia : i ≠ a := fun hcon => hi (hcon ▸ List.mem_cons_self a t)
    simp [fun_set, hia]

theorem group_fold_clear_mem (l : List Nat) (hp : Nat → UiCoreState) (i : Nat)
    (hi : i ∈ l) :
    (l.foldl (fun hp i => fun_set hp i ⟨false, false⟩) hp) i = ⟨false, false⟩ := by
  induction l generalizing hp with
  | nil => cases hi
  | cons a t ih =>
    simp only [List.foldl_cons]
    by_cases hit : i ∈ t
    · exact ih _ hit
    · have hia : i = a := by
        rcases List.mem_cons.mp hi with h | h
        · exact h
        · exact absurd h hit
      subst hia
      rw [group_fold_clear_not_mem _ _ _ hit]
      simp [fun_set]

theorem getD_nodup_inj (l : List Nat) (h : l.Nodup) (i j : Nat)
    (hi : i < l.length) (hj : j < l.length)
    (he : l.getD i 0 = l.getD j 0) : i = j := by
  rw [List.getD_eq_getElem l 0 hi, List.getD_eq_getElem l 0 hj] at he
  exact h.getElem_inj_iff.mp he

theorem countP_eq_one_of_pointwise (l : List Nat) (pred : Nat → Bool) (k : Nat)
    (hk : k < l.length)
    (hpt : ∀ j, j < l.length → (pred (l.getD j 0) = true ↔ j = k)) :
    l.countP pred = 1 := by
  induction l generalizing k with
  | nil => simp at hk
  | cons a t ih =>
    rw [List.countP_cons]
    cases k with
    | zero =>
      have ha : pred a = true := (hpt 0 (by simp)).mpr rfl
      have ht : t.countP pred = 0 := by
        rw [List.countP_eq_zero]
        intro b hb
        obtain ⟨n, hn, hbn⟩ := List.getElem_of_mem hb
        intro hcon
        have : n + 1 = 0 := by
          refine (hpt (n + 1) (by simp; omega)).mp ?_
          rw [show (a :: t).getD (n + 1) 0 = t.getD n 0 from rfl,
            List.getD_eq_getElem t 0 hn, hbn]
          exact hcon
        omega
      rw [ht, if_pos ha]
    | succ k' =>
      have ha : ¬ pred a = true := by
        intro hcon
        have := (hpt 0 (by simp)).mp hcon
        omega
      have ht : t.countP pred = 1 := by
        refine ih k' (by simp at hk; omega) ?_
        intro j hj
        have := hpt (j + 1) (by simp; omega)
        rw [show (a :: t).getD (j + 1) 0 = t.getD j 0 from rfl] at this
        rw [this]
        omega
      rw [ht, if_neg ha]

theorem reset_selection_nil (s : GroupState) (hm : s.items = []) :
    reset_selection s = { s with selected_index := 0 } := by
  simp only [reset_selection, hm]

theorem reset_selection_cons (s : GroupState) (a : Nat) (rest : List Nat)
    (hm : s.items = a :: rest) :
    reset_selection s =
      { s with selected_index := 0
               heap := (rest.foldl (fun hp i => fun_set hp i ⟨false, false⟩)
                  (fun_set s.heap a ⟨false, true⟩)) } := by
  simp only [reset_selection, hm]

theorem reset_selection_props (s : GroupState) (hnd : s.items.Nodup) :
    (reset_selection s).items = s.items ∧ group_inv (reset_selection s) := by
  cases hm : s.items with
  | nil =>
    rw [reset_selection_nil s hm]
    refine ⟨hm, hnd, ?_⟩
    intro hne
    exact absurd hm hne
  | cons a rest =>
    have hnd' : (a :: rest).Nodup := hm ▸ hnd
    have hanr : a ∉ rest := (List.nodup_cons.mp hnd').1
    rw [reset_selection_cons s a rest hm]
    refine ⟨hm, hnd, ?_⟩
    intro _
    constructor
    · show 0 < s.items.length
      rw [hm]; simp
    · intro j hj
      show ((rest.foldl (fun hp i => fun_set hp i ⟨false, false⟩)
          (fun_set s.heap a ⟨false, true⟩)) (s.items.getD j 0)).on_selected = true ↔ j = 0
      rw [hm] at hj
      cases j with
      | zero =>
        rw [show s.items.getD 0 0 = a from by rw [hm]; rfl,
          group_fold_clear_not_mem _ _ _ hanr]
        simp [fun_set]
      | succ j' =>
        have hj' : j' < rest.length := by simp at hj; omega
        rw [show s.items.getD (j' + 1) 0 = rest.getD j' 0 from by rw [hm]; rfl,
          group_fold_clear_mem _ _ _
            (by rw [List.getD_eq_getElem rest 0 hj']; exact List.getElem_mem hj')]
        simp

theorem select_shift_heap_eval (hp : Nat → UiCoreState) (i0 i1 b : Nat) :
    (select_shift_heap hp i0 i1 i1).on_selected = true ∧
    (i0 ≠ i1 → (select_shift_heap hp i0 i1 i0).on_selected = false) ∧
    (b ≠ i1 → b ≠ i0 → select_shift_heap hp i0 i1 b = hp b) := by
  refine ⟨?_, ?_, ?_⟩
  · simp [select_shift_heap, fun_set]
  · intro h01
    simp [select_shift_heap, fun_set, h01]
  · intro hb1 hb0
    simp [select_shift_heap, fun_set, hb1, hb0]

theorem group_select_next_props (s : GroupState) (v : Bool) (hinv : group_inv s) :
    group_inv (group_select_next s v) ∧ (group_select_next s v).items = s.items := by
  unfold group_select_next
  by_cases hv : v = false
  · rw [if_pos hv]; exact ⟨hinv, rfl⟩
  rw [if_neg hv]
  by_cases hlt : s.selected_index < s.items.length - 1
  case neg => rw [if_neg hlt]; exact ⟨hinv, rfl⟩
  rw [if_pos hlt]
  obtain ⟨hnd, hrest⟩ := hinv
  have hne : s.items ≠ [] := by
    intro hcon; rw [hcon] at hlt; simp at hlt
  obtain ⟨hsel, hflag⟩ := hrest hne
  have hlen2 : s.selected_index + 1 < s.items.length := by omega
  refine ⟨⟨hnd, ?_⟩, rfl⟩
  intro _
  refine ⟨hlen2, ?_⟩
  intro j hj
  have hj' : j < s.items.length := hj
  show ((select_shift_heap s.heap (s.items.getD s.selected_index 0)
      (s.items.getD (s.selected_index + 1) 0) (s.items.getD j 0)).on_selected = true)
    ↔ j = s.selected_index + 1
  by_cases hj1 : j = s.selected_index + 1
  · subst hj1
    simp [(select_shift_heap_eval s.heap _ _ 0).1]
  · have hbne1 : s.items.getD j 0 ≠ s.items.getD (s.selected_index + 1) 0 :=
      fun hcon => hj1 (getD_nodup_inj _ hnd _ _ hj' hlen2 hcon)
    by_cases hj0 : j = s.selected_index
    · have h01 : s.items.getD s.selected_index 0 ≠ s.items.getD (s.selected_index + 1) 0 :=
        fun hcon => by have := getD_nodup_inj _ hnd _ _ hsel hlen2 hcon; omega
      rw [hj0, ((select_shift_heap_eval s.heap (s.items.getD s.selected_index 0)
        (s.items.getD (s.selected_index + 1) 0) 0).2.1) h01]
      constructor
      · intro hcon; exact absurd hcon (by decide)
      · intro hcon; exact absurd hcon (by omega)
    · have hbne0 : s.items.getD j 0 ≠ s.items.getD s.selected_index 0 :=
        fun hcon => hj0 (getD_nodup_inj _ hnd _ _ hj' hsel hcon)
      rw [((select_shift_heap_eval s.heap _ _ (s.items.getD j 0)).2.2) hbne1 hbne0]
      rw [hflag j hj']
      constructor
      · intro h; exact absurd h hj0
      · intro h; exact absurd h hj1

theorem group_select_prev_props (s : GroupState) (v : Bool) (hinv : group_inv s) :
    group_inv (group_select_prev s v) ∧ (group_select_prev s v).items = s.items := by
  unfold group_select_prev
  by_cases hv : v = false
  · rw [if_pos hv]; exact ⟨hinv, rfl⟩
  rw [if_neg hv]
  by_cases hlt : 0 < s.selected_index
  case neg => rw [if_neg hlt]; exact ⟨hinv, rfl⟩
  rw [if_pos hlt]
  obtain ⟨hnd, hrest⟩ := hinv
  by_cases hne : s.items = []
  · refine ⟨⟨hnd, ?_⟩, rfl⟩
    intro hne2
    exact absurd hne hne2
  obtain ⟨hsel, hflag⟩ := hrest hne
  have hlen2 : s.selected_index - 1 < s.items.length := by omega
  refine ⟨⟨hnd, ?_⟩, rfl⟩
  intro _
  refine ⟨hlen2, ?_⟩
  intro j hj
  have hj' : j < s.items.length := hj
  show ((select_shift_heap s.heap (s.items.getD s.selected_index 0)
      (s.items.getD (s.selected_index - 1) 0) (s.items.getD j 0)).on_selected = true)
    ↔ j = s.selected_index - 1
  by_cases hj1 : j = s.selected_index - 1
  · subst hj1
    simp [(select_shift_heap_eval s.heap _ _ 0).1]
  · have hbne1 : s.items.getD j 0 ≠ s.items.getD (s.selected_index - 1) 0 :=
      fun hcon => hj1 (getD_nodup_inj _ hnd _ _ hj' hlen2 hcon)
    by_cases hj0 : j = s.selected_index
    · have h01 : s.items.getD s.selected_index 0 ≠ s.items.getD (s.selected_index - 1) 0 :=
        fun hcon => by have := getD_nodup_inj _ hnd _ _ hsel hlen2 hcon; omega
      rw [hj0, ((select_shift_heap_eval s.heap (s.items.getD s.selected_index 0)
        (s.items.getD (s.selected_index - 1) 0) 0).2.1) h01]
      constructor
      · intro hcon; exact absurd hcon (by decide)
      · intro hcon; exact absurd hcon (by omega)
    · have hbne0 : s.items.getD j 0 ≠ s.items.getD s.selected_index 0 :=
        fun hcon => hj0 (getD_nodup_inj _ hnd _ _ hj' hsel hcon)
      rw [((select_shift_heap_eval s.heap _ _ (s.items.getD j 0)).2.2) hbne1 hbne0]
      rw [hflag j hj']
      constructor
      · intro h; exact absurd h hj0
      · intro h; exact absurd h hj1

theorem group_set_on_press_props (s : GroupState) (v : Bool) (hinv : group_inv s) :
    group_inv (group_set_on_press s v) ∧ (group_set_on_press s v).items = s.items := by
  obtain ⟨hnd, hrest⟩ := hinv
  refine ⟨⟨hnd, ?_⟩, rfl⟩
  intro hne
  obtain ⟨hsel, hflag⟩ := hrest hne
  refine ⟨hsel, ?_⟩
  intro j hj
  have hj' : j < s.items.length := hj
  show ((fun_set s.heap (s.items.getD s.selected_index 0)
      { s.heap (s.items.getD s.selected_index 0) with on_press := v }
      (s.items.getD j 0)).on_selected = true) ↔ j = s.selected_index
  by_cases hb : s.items.getD j 0 = s.items.getD s.selected_index 0
  · have hjk : j = s.selected_index := getD_nodup_inj _ hnd _ _ hj' hsel hb
    have htrue : (s.heap (s.items.getD s.selected_index 0)).on_selected = true :=
      (hflag s.selected_index hsel).mpr rfl
    rw [hb]
    simp only [fun_set, if_pos rfl]
    constructor
    · intro _; exact hjk
    · intro _; exact htrue
  · simp only [fun_set, if_neg hb]
    exact hflag j hj'

theorem group_add_props (s : GroupState) (i : Nat)
    (hnd : s.items.Nodup) (hmem : i ∉ s.items) :
    group_inv (group_add s i) ∧ (group_add s i).items = s.items ++ [i] := by
  have hnd2 : (s.items ++ [i]).Nodup := by
    rw [List.nodup_append]
    refine ⟨hnd, List.nodup_singleton i, ?_⟩
    intro b hb hcon
    simp only [List.mem_singleton] at hcon
    subst hcon
    exact hmem hb
  have hp := reset_selection_props { s with items := s.items ++ [i] } hnd2
  exact ⟨hp.2, hp.1⟩

theorem group_remove_props (s : GroupState) (i : Nat) (hnd : s.items.Nodup) :
    group_inv (group_remove s i) ∧ (group_remove s i).items = s.items.erase i := by
  have hnd2 : (s.items.erase i).Nodup := List.Nodup.erase i hnd
  have hp := reset_selection_props { s with items := s.items.erase i } hnd2
  exact ⟨hp.2, hp.1⟩

theorem group_run_inv (ops : List GroupOp) (s : GroupState) (hinv : group_inv s)
    (hok : group_ops_ok s ops = true) : group_inv (group_run s ops) := by
  induction ops generalizing s with
  | nil => exact hinv
  | cons op rest ih =>
    unfold group_ops_ok at hok
    rw [Bool.and_eq_true] at hok
    obtain ⟨hg, hrest⟩ := hok
    refine ih (group_step s op) ?_ hrest
    cases op with
    | add i =>
      have hmem : i ∉ s.items := by simpa using hg
      exact (group_add_props s i hinv.1 hmem).1
    | remove i => exact (group_remove_props s i hinv.1).1
    | select_next v => exact (group_select_next_props s v hinv).1
    | select_prev v => exact (group_select_prev_props s v hinv).1
    | press v => exact (group_set_on_press_props s v hinv).1

/-- C9 (amended): starting from a fresh group, after any sequence of `add`
(of an element not already in the group), `remove`, `set_on_select_next`,
`set_on_select_prev` and `set_on_press` (on a non-empty group, where the
source would otherwise dereference null), a non-empty group has exactly one
element whose selected flag is set.  (The unconditional claim fails when
the same drawable is added twice, refuted below.) -/
theorem group_exactly_one_selected (hp0 : Nat → UiCoreState) (ops : List GroupOp)
    (hok : group_ops_ok (group_init hp0) ops = true)
    (hne : (group_run (group_init hp0) ops).items ≠ []) :
    group_selected_count (group_run (group_init hp0) ops) = 1 := by
  have hinv0 : group_inv (group_init hp0) :=
    ⟨List.nodup_nil, fun hne0 => absurd rfl hne0⟩
  obtain ⟨hnd, hrest⟩ := group_run_inv ops (group_init hp0) hinv0 hok
  obtain ⟨hsel, hflag⟩ := hrest hne
  exact countP_eq_one_of_pointwise _ _ _ hsel hflag

/-- C9 counterexample: adding the same drawable twice (a legal call
sequence on the source API, which stores raw references) leaves a group of
two elements with zero selected elements: `reset_selection` first sets the
shared object's flag and then clears it again when walking the tail. -/
theorem group_duplicate_add_counterexample :
    (group_run (group_init fun _ => ⟨false, false⟩)
      [GroupOp.add 5, GroupOp.add 5]).items ≠ [] ∧
    group_selected_count (group_run (group_init fun _ => ⟨false, false⟩)
      [GroupOp.add 5, GroupOp.add 5]) = 0 := by
  refine ⟨?_, ?_⟩ <;> decide

theorem group_exactly_one_selected_witness :
    group_ops_ok (group_init fun _ => ⟨false, false⟩)
      [GroupOp.add 1, GroupOp.add 2, GroupOp.select_next true] = true ∧
    (group_run (group_init fun _ => ⟨false, false⟩)
      [GroupOp.add 1, GroupOp.add 2, GroupOp.select_next true]).items ≠ [] ∧
    group_selected_count (group_run (group_init fun _ => ⟨false, false⟩)
      [GroupOp.add 1, GroupOp.add 2, GroupOp.select_next true]) = 1 :=
  ⟨by decide, by decide,
   group_exactly_one_selected (fun _ => ⟨false, false⟩)
     [GroupOp.add 1, GroupOp.add 2, GroupOp.select_next true]
     (by decide) (by decide)⟩

/-- `mgui` screen buffer size (mgui.h:1525): `width * (height >> 3)` bytes. -/
def buffer_size (width height : Nat) : Nat := width * (height / 8)

/-- `mgui::update_lcd` (mgui.h:1571-1589): read the input snapshot, clear
the whole buffer with `memset(lcd_buffer, 0, buffer_size)`, then call every
attached object's `update` in list order.  Attached objects are modelled as
buffer transformations; the buffer passed in is the previous frame's
contents, which the memset discards before any object runs. -/
def update_lcd (width height : Nat) (objs : List (List Byte → List Byte))
    (_prev : List Byte) : List Byte :=
  objs.foldl (fun buf f => f buf) (List.replicate (buffer_size width height) 0)

/-- C10: `update_lcd` clears the framebuffer to all-zero bytes before any
attached object's update runs, so the produced frame never depends on the
previous frame's buffer contents; in particular with no attached objects
every byte of the buffer is 0 afterwards. -/
theorem update_lcd_clears (width height : Nat)
    (objs : List (List Byte → List Byte)) (prev prev2 : List Byte) :
    update_lcd width height objs prev = update_lcd width height objs prev2 ∧
    (∀ j, (update_lcd width height [] prev).getD j 0 = 0) := by
  refine ⟨rfl, ?_⟩
  intro j
  show (List.replicate (buffer_size width height) 0).getD j 0 = 0
  by_cases hj : j < buffer_size width height
  · rw [List.getD_eq_getElem _ _ (by simpa using hj), List.getElem_replicate]
  · rw [List.getD_eq_default]
    simpa using hj
